import Mathlib

/-!
Shallow embedding of the ModelRegistry reconciliation controller
(`internal/controller/modelregistry_controller.go`) and proofs of the
spec claims about it.

External store calls (get/create/update, status updates) are modelled by
passing each call's outcome as an explicit parameter: `none` for success,
`some e` for a failed call with a structured error `e`.  Flow of control,
result values and the state written back are translated statement by
statement from the Go source.
-/

/-- Structured store errors, as classified by the controller: the Go code
only ever branches on `errors.IsNotFound` and `errors.IsConflict`; every
other error is lumped together. -/
inductive StoreErr
  | notFound
  | conflict
  | other
deriving DecidableEq, Repr

/-- Ternary outcome of an apply attempt (`OperationResult` in the source). -/
inductive OperationResult
  | ResourceUnchanged
  | ResourceCreated
  | ResourceUpdated
deriving DecidableEq, Repr

/-- `const modelRegistryFinalizer = "modelregistry.opendatahub.io/finalizer"`. -/
def modelRegistryFinalizer : String := "modelregistry.opendatahub.io/finalizer"

def ConditionTypeAvailable : String := "Available"

def ConditionTypeProgressing : String := "Progressing"

def ConditionTypeDegraded : String := "Degraded"

def ReasonCreated : String := "CreatedDeployment"

def ReasonCreating : String := "CreatingDeployment"

def ReasonUpdating : String := "UpdatingDeployment"

def ReasonAvailable : String := "DeploymentAvailable"

def ReasonUnavailable : String := "DeploymentUnavailable"

/-- `metav1.ConditionTrue`. -/
def ConditionTrue : String := "True"

/-- `metav1.ConditionFalse`. -/
def ConditionFalse : String := "False"

/-- `metav1.ConditionUnknown`. -/
def ConditionUnknown : String := "Unknown"

/-- `IgnoreDeletingErrors` from the source: returns nil for nil, NotFound
and Conflict errors, and returns the error itself otherwise. -/
def IgnoreDeletingErrors : Option StoreErr → Option StoreErr
  | none => none
  | some StoreErr.notFound => none
  | some StoreErr.conflict => none
  | some e => some e

/-- A managed object as the apply engine sees it: identity, the two
type-metadata fields and the status sub-object that the diff ignores, the
last-applied annotation, and the renderer-controlled payload collapsed
into one opaque `body` field. -/
structure KubeObj where
  apiVersion : String
  kind : String
  name : String
  ns : String
  lastApplied : Option String
  body : String
  status : String
deriving DecidableEq, Repr

/-- Modelled from the spec: the serialized rendered body captured by the
last-applied annotation (`patch.DefaultAnnotator.SetLastAppliedAnnotation`,
an external library call; the spec describes it as stamping the intended
object with an annotation capturing its full rendered body). -/
def renderedBody (o : KubeObj) : String :=
  o.apiVersion ++ "/" ++ o.kind ++ "/" ++ o.ns ++ "/" ++ o.name ++ ":" ++ o.body

/-- Modelled from the spec: `SetLastAppliedAnnotation` stamps the object's
last-applied annotation with its rendered body. -/
def stampLastApplied (o : KubeObj) : KubeObj :=
  { o with lastApplied := some (renderedBody o) }

/-- Modelled from the spec: emptiness of the structural diff computed by
the external `patch.DefaultPatchMaker.Calculate(currObj, newObj,
IgnoreStatusFields(), IgnoreField("apiVersion"), IgnoreField("kind"))`
call.  The diff ignores the status sub-object, the apiVersion and kind
metadata, and the last-applied annotation itself (which the patch maker
consumes as its baseline), and is empty exactly when the remaining
fields — identity and renderer-controlled body — coincide. -/
def calculateIsEmpty (curr newObj : KubeObj) : Bool :=
  curr.name == newObj.name && curr.ns == newObj.ns && curr.body == newObj.body

/-- A store read: an injected transport error takes precedence; otherwise
the live object is returned when present and NotFound when absent. -/
def storeGet (store : Option KubeObj) (getFail : Option StoreErr) :
    Except StoreErr KubeObj :=
  match getFail with
  | some e => Except.error e
  | none =>
    match store with
    | some o => Except.ok o
    | none => Except.error StoreErr.notFound

/-- `createOrUpdate` from the source, over a single-key store.  The
outcome of each fallible external call is an explicit parameter:
`getFail` for `r.Client.Get`, `annotFail` for `SetLastAppliedAnnotation`,
`calcFail` for `patch.Calculate`, `writeFail` for `r.Client.Create` or
`r.Client.Update`.  Returns the operation result, the returned error, and
the store after the call. -/
def createOrUpdate (store : Option KubeObj) (getFail : Option StoreErr)
    (annotFail : Option StoreErr) (calcFail : Option StoreErr)
    (writeFail : Option StoreErr) (newObj : KubeObj) :
    OperationResult × Option StoreErr × Option KubeObj :=
  match storeGet store getFail with
  | Except.error e =>
    if e = StoreErr.notFound then
      -- create object: result is committed before annotating and writing
      match annotFail with
      | some ae => (OperationResult.ResourceCreated, some ae, store)
      | none =>
        match writeFail with
        | some we => (OperationResult.ResourceCreated, some we, store)
        | none =>
          (OperationResult.ResourceCreated, none, some (stampLastApplied newObj))
    else
      (OperationResult.ResourceUnchanged, some e, store)
  | Except.ok curr =>
    match calcFail with
    | some ce => (OperationResult.ResourceUnchanged, some ce, store)
    | none =>
      if calculateIsEmpty curr newObj then
        (OperationResult.ResourceUnchanged, none, store)
      else
        match annotFail with
        | some ae => (OperationResult.ResourceUpdated, some ae, store)
        | none =>
          match writeFail with
          | some we => (OperationResult.ResourceUpdated, some we, store)
          | none =>
            (OperationResult.ResourceUpdated, none, some (stampLastApplied newObj))

/-- A status condition (`metav1.Condition`, the fields the controller sets). -/
structure MRCondition where
  ctype : String
  cstatus : String
  reason : String
  message : String
deriving DecidableEq, Repr

/-- `meta.SetStatusCondition`: replace the first condition of the same
type in place, or append when no condition of that type exists. -/
def setStatusCondition : List MRCondition → MRCondition → List MRCondition
  | [], c => [c]
  | x :: rest, c =>
    if x.ctype == c.ctype then c :: rest else x :: setStatusCondition rest c

/-- A deployment status condition (type and status are all the controller
reads). -/
structure DepCondition where
  dtype : String
  dstatus : String
deriving DecidableEq, Repr

/-- The Deployment as the status derivation sees it. -/
structure Deployment where
  conditions : List DepCondition
deriving DecidableEq, Repr

/-- The deployment-availability loop in `setRegistryStatus`:
`available := false`, then scan the conditions and on the first one of
type Available take its status and break. -/
def deploymentAvailable : List DepCondition → Bool
  | [] => false
  | c :: rest =>
    if c.dtype == ConditionTypeAvailable then c.dstatus == ConditionTrue
    else deploymentAvailable rest

/-- The ModelRegistry parent resource: finalizer tokens, whether a
deletion timestamp is set, and the status conditions. -/
structure MR where
  finalizers : List String
  deleted : Bool
  conditions : List MRCondition
deriving DecidableEq, Repr

/-- Outcome of `setRegistryStatus`: the condition list handed to the
status write when one was issued, and the returned error. -/
structure StatusOut where
  written : Option (List MRCondition)
  err : Option StoreErr
deriving DecidableEq, Repr

/-- `setRegistryStatus` from the source: re-fetch the parent, set the
Progressing condition from the operation result, read the Deployment,
derive the Available condition from its conditions, and issue the status
write.  `getMR` is the parent re-fetch outcome, `getDep` the Deployment
read outcome, `statusUpdErr` the status write outcome. -/
def setRegistryStatus (getMR : Except StoreErr MR)
    (getDep : Except StoreErr Deployment) (statusUpdErr : Option StoreErr)
    (opRes : OperationResult) (name : String) : StatusOut :=
  match getMR with
  | Except.error e => ⟨none, some e⟩
  | Except.ok mr =>
    let p : String × String × String :=
      match opRes with
      | OperationResult.ResourceCreated =>
        (ConditionFalse, ReasonCreating,
          "Creating deployment for custom resource " ++ name)
      | OperationResult.ResourceUpdated =>
        (ConditionFalse, ReasonUpdating,
          "Updating deployment for custom resource " ++ name)
      | OperationResult.ResourceUnchanged =>
        (ConditionTrue, ReasonCreated,
          "Deployment for custom resource " ++ name ++ " was successfully created")
    let conds1 := setStatusCondition mr.conditions
      ⟨ConditionTypeProgressing, p.1, p.2.1, p.2.2⟩
    match getDep with
    | Except.error e => ⟨none, some e⟩
    | Except.ok dep =>
      let av := deploymentAvailable dep.conditions
      let a : String × String × String :=
        if av then
          (ConditionTrue, ReasonAvailable,
            "Deployment for custom resource " ++ name ++ " is available")
        else
          (ConditionFalse, ReasonUnavailable,
            "Deployment for custom resource " ++ name ++ " is not available")
      let conds2 := setStatusCondition conds1
        ⟨ConditionTypeAvailable, a.1, a.2.1, a.2.2⟩
      match statusUpdErr with
      | some e => ⟨some conds2, some e⟩
      | none => ⟨some conds2, none⟩

/-- `controllerutil.ContainsFinalizer` for the modelRegistry finalizer. -/
def containsFin (mr : MR) : Bool :=
  mr.finalizers.contains modelRegistryFinalizer

/-- `controllerutil.AddFinalizer`: append the token when absent; the
returned flag reports whether the object was modified. -/
def addFin (mr : MR) : Bool × MR :=
  if containsFin mr then (false, mr)
  else (true, { mr with finalizers := mr.finalizers ++ [modelRegistryFinalizer] })

/-- `controllerutil.RemoveFinalizer`: drop the token; the returned flag
reports whether the object was modified. -/
def removeFin (mr : MR) : Bool × MR :=
  if containsFin mr then
    (true, { mr with finalizers := mr.finalizers.filter (fun f => f != modelRegistryFinalizer) })
  else (false, mr)

/-- Observable steps of one reconcile attempt, in the order the source
performs them. -/
inductive Event
  | addFinalizer
  | setDegradedUnknown
  | statusWrite1
  | cleanup
  | refetch
  | setDegradedTrue
  | statusWrite2
  | removeFinalizer
  | finalizerWrite
  | normalPath
deriving DecidableEq, Repr

/-- The `ctrl.Result` / error pair a reconcile attempt returns. -/
structure RecRes where
  requeue : Bool
  err : Option StoreErr
deriving DecidableEq, Repr

/-- Outcomes of the external calls one `Reconcile` attempt makes, plus
the loaded objects those calls return. -/
structure ReconcileEnv where
  getRes : Except StoreErr MR
  addUpdErr : Option StoreErr
  su1Err : Option StoreErr
  refetchRes : Except StoreErr MR
  su2Err : Option StoreErr
  finUpdErr : Option StoreErr
  normalRes : OperationResult × Option StoreErr
  statusErr : Option StoreErr
deriving Repr

/-- The error carried by an `Except` store-read outcome, if any (Go's
`err` variable after the call). -/
def exceptErr {α : Type} : Except StoreErr α → Option StoreErr
  | Except.error e => some e
  | Except.ok _ => none

/-- The Degraded/Unknown condition set when the deletion branch starts. -/
def degradedUnknownCond (name : String) : MRCondition :=
  ⟨ConditionTypeDegraded, ConditionUnknown, "Finalizing",
    "Performing finalizer operations for the custom resource: " ++ name ++ " "⟩

/-- The Degraded/True condition set after cleanup finished. -/
def degradedTrueCond (name : String) : MRCondition :=
  ⟨ConditionTypeDegraded, ConditionTrue, "Finalizing",
    "Finalizer operations for custom resource " ++ name ++ " were successfully accomplished"⟩

/-- The deletion branch of `Reconcile` (lines guarded by
`isMarkedToBeDeleted`): when the finalizer is present, set
Degraded/Unknown and write status, run the finalizer operations (the
cleanup notification), re-fetch the parent, set Degraded/True and write
status, then remove the finalizer and persist; every write goes through
`IgnoreDeletingErrors`.  Returns the event trace and the attempt's
result. -/
def deletionBranch (env : ReconcileEnv) (mr : MR) (name : String) :
    List Event × RecRes :=
  if containsFin mr then
    let mr1 := { mr with conditions := setStatusCondition mr.conditions (degradedUnknownCond name) }
    let evs1 := [Event.setDegradedUnknown, Event.statusWrite1]
    match IgnoreDeletingErrors env.su1Err with
    | some e => (evs1, ⟨false, some e⟩)
    | none =>
      let evs2 := evs1 ++ [Event.cleanup, Event.refetch]
      match IgnoreDeletingErrors (exceptErr env.refetchRes) with
      | some e => (evs2, ⟨false, some e⟩)
      | none =>
        let mr2 :=
          match env.refetchRes with
          | Except.ok fresh => fresh
          | Except.error _ => mr1
        let mr3 := { mr2 with conditions := setStatusCondition mr2.conditions (degradedTrueCond name) }
        let evs3 := evs2 ++ [Event.setDegradedTrue, Event.statusWrite2]
        match IgnoreDeletingErrors env.su2Err with
        | some e => (evs3, ⟨false, some e⟩)
        | none =>
          let rem := removeFin mr3
          if rem.1 then
            let evs4 := evs3 ++ [Event.removeFinalizer, Event.finalizerWrite]
            match IgnoreDeletingErrors env.finUpdErr with
            | some e => (evs4, ⟨false, some e⟩)
            | none => (evs4, ⟨false, none⟩)
          else
            (evs3, ⟨true, none⟩)
  else
    ([], ⟨false, none⟩)

/-- `Reconcile` from the source: load the parent (NotFound is terminal
success, other read errors are fatal); add the finalizer when absent and
persist it; branch on the deletion timestamp into `deletionBranch`;
otherwise run the normal path — apply the managed resources
(`env.normalRes` is the `updateRegistryResources` outcome), set the
registry status (`env.statusErr` its error), and requeue when the
aggregate result was not Unchanged. -/
def reconcile (env : ReconcileEnv) (name : String) : List Event × RecRes :=
  match env.getRes with
  | Except.error e =>
    if e = StoreErr.notFound then ([], ⟨false, none⟩)
    else ([], ⟨false, some e⟩)
  | Except.ok mr0 =>
    let addStep : List Event × Option RecRes × MR :=
      if containsFin mr0 then ([], none, mr0)
      else
        let a := addFin mr0
        if a.1 then
          match env.addUpdErr with
          | some e => ([Event.addFinalizer], some ⟨false, some e⟩, a.2)
          | none => ([Event.addFinalizer], none, a.2)
        else
          ([], some ⟨true, none⟩, mr0)
    match addStep with
    | (evs, some res, _) => (evs, res)
    | (evs, none, mr1) =>
      if mr1.deleted then
        let d := deletionBranch env mr1 name
        (evs ++ d.1, d.2)
      else
        let evs2 := evs ++ [Event.normalPath]
        match env.normalRes with
        | (_, some e) => (evs2, ⟨false, some e⟩)
        | (result, none) =>
          match env.statusErr with
          | some e => (evs2, ⟨true, some e⟩)
          | none =>
            if result ≠ OperationResult.ResourceUnchanged then (evs2, ⟨true, none⟩)
            else (evs2, ⟨false, none⟩)

/-- `updateRegistryResources` from the source, over the outcomes of the
three `createOrUpdate` wrappers (service account, service, deployment, in
that order): return the first error with its partial result; otherwise
fold the three results, later non-Unchanged results overwriting. -/
def updateRegistryResources (r1 r2 r3 : OperationResult × Option StoreErr) :
    OperationResult × Option StoreErr :=
  match r1 with
  | (res1, some e) => (res1, some e)
  | (res1, none) =>
    match r2 with
    | (res2, some e) => (res2, some e)
    | (res2, none) =>
      let acc := if res2 ≠ OperationResult.ResourceUnchanged then res2 else res1
      match r3 with
      | (res3, some e) => (res3, some e)
      | (res3, none) =>
        (if res3 ≠ OperationResult.ResourceUnchanged then res3 else acc, none)

/-- Setting a condition always leaves that condition in the list. -/
theorem mem_setStatusCondition (conds : List MRCondition) (c : MRCondition) :
    c ∈ setStatusCondition conds c := by
  induction conds with
  | nil => simp [setStatusCondition]
  | cons x rest ih =>
    simp only [setStatusCondition]
    by_cases h : x.ctype == c.ctype
    · simp [h]
    · simp [h]
      right
      exact ih

/-- C8: when loading the parent at the start of a reconcile, a NotFound
error is terminal success — no error, no requeue, and no further work
(an empty event trace); any other read error is returned as a fatal
error for the attempt. -/
theorem parent_notFound_terminal_success :
    (∀ (env : ReconcileEnv) (name : String),
      env.getRes = Except.error StoreErr.notFound →
      reconcile env name = ([], ⟨false, none⟩)) ∧
    (∀ (env : ReconcileEnv) (name : String) (e : StoreErr),
      env.getRes = Except.error e → e ≠ StoreErr.notFound →
      reconcile env name = ([], ⟨false, some e⟩)) := by
  constructor
  · intro env name h
    simp [reconcile, h]
  · intro env name e h hne
    simp [reconcile, h, hne]

/-- Witness for C8 at concrete environments. -/
theorem parent_notFound_terminal_success_witness :
    reconcile ⟨Except.error StoreErr.notFound, none, none,
        Except.error StoreErr.notFound, none, none,
        (OperationResult.ResourceUnchanged, none), none⟩ "demo" =
      ([], ⟨false, none⟩) ∧
    reconcile ⟨Except.error StoreErr.other, none, none,
        Except.error StoreErr.notFound, none, none,
        (OperationResult.ResourceUnchanged, none), none⟩ "demo" =
      ([], ⟨false, some StoreErr.other⟩) :=
  ⟨parent_notFound_terminal_success.1 _ "demo" rfl,
   parent_notFound_terminal_success.2 _ "demo" StoreErr.other rfl (by decide)⟩

/-- C4: the apply operation is idempotent — starting from a store where
the intended object is absent, the first call returns Created with no
error, and a second call with the same intended object on the store the
first call produced returns Unchanged (never Updated) with no error. -/
theorem createOrUpdate_idempotent (newObj : KubeObj) :
    createOrUpdate none none none none none newObj =
      (OperationResult.ResourceCreated, none, some (stampLastApplied newObj)) ∧
    createOrUpdate (createOrUpdate none none none none none newObj).2.2
        none none none none newObj =
      (OperationResult.ResourceUnchanged, none, some (stampLastApplied newObj)) := by
  constructor
  · rfl
  · simp [createOrUpdate, storeGet, calculateIsEmpty, stampLastApplied]

/-- C5: when the live and intended objects differ only in ignored fields
(status, apiVersion, kind — and the store-managed last-applied
annotation), the apply returns Unchanged and performs no write, and
mutating only such an ignored field on the live object still yields
Unchanged on the next apply. -/
theorem createOrUpdate_diff_suppression (curr newObj : KubeObj)
    (s a k : String) (l : Option String)
    (hn : curr.name = newObj.name) (hns : curr.ns = newObj.ns)
    (hb : curr.body = newObj.body) :
    createOrUpdate (some curr) none none none none newObj =
      (OperationResult.ResourceUnchanged, none, some curr) ∧
    createOrUpdate
        (some { curr with status := s, apiVersion := a, kind := k, lastApplied := l })
        none none none none newObj =
      (OperationResult.ResourceUnchanged, none,
        some { curr with status := s, apiVersion := a, kind := k, lastApplied := l }) := by
  constructor
  · simp [createOrUpdate, storeGet, calculateIsEmpty, hn, hns, hb]
  · simp [createOrUpdate, storeGet, calculateIsEmpty, hn, hns, hb]

/-- Witness for C5 at concrete objects. -/
theorem createOrUpdate_diff_suppression_witness :
    createOrUpdate
        (some ⟨"", "", "demo", "ns1", some "x", "spec1", "live-status"⟩)
        none none none none ⟨"apps/v1", "Deployment", "demo", "ns1", none, "spec1", ""⟩ =
      (OperationResult.ResourceUnchanged, none,
        some ⟨"", "", "demo", "ns1", some "x", "spec1", "live-status"⟩) :=
  (createOrUpdate_diff_suppression
    ⟨"", "", "demo", "ns1", some "x", "spec1", "live-status"⟩
    ⟨"apps/v1", "Deployment", "demo", "ns1", none, "spec1", ""⟩
    "live-status" "" "" (some "x") rfl rfl rfl).1

/-- C9: the `OperationResult` is committed before the annotate and write
steps, so a call that fails in those steps still reports Created or
Updated alongside the error: on the create path a failing create write or
a failing annotate returns Created with the error (and the store is not
changed), and on the update path (non-empty diff) a failing update write
or a failing annotate returns Updated with the error. -/
theorem result_set_before_write (curr newObj : KubeObj) (e : StoreErr)
    (hne : calculateIsEmpty curr newObj = false) :
    createOrUpdate none none none none (some e) newObj =
      (OperationResult.ResourceCreated, some e, none) ∧
    createOrUpdate none none (some e) none none newObj =
      (OperationResult.ResourceCreated, some e, none) ∧
    createOrUpdate (some curr) none none none (some e) newObj =
      (OperationResult.ResourceUpdated, some e, some curr) ∧
    createOrUpdate (some curr) none (some e) none none newObj =
      (OperationResult.ResourceUpdated, some e, some curr) := by
  refine ⟨rfl, rfl, ?_, ?_⟩
  · simp [createOrUpdate, storeGet, hne]
  · simp [createOrUpdate, storeGet, hne]

/-- Witness for C9 at concrete objects. -/
theorem result_set_before_write_witness :
    createOrUpdate (some ⟨"", "", "demo", "ns1", none, "spec1", ""⟩)
        none none none (some StoreErr.conflict)
        ⟨"", "", "demo", "ns1", none, "spec2", ""⟩ =
      (OperationResult.ResourceUpdated, some StoreErr.conflict,
        some ⟨"", "", "demo", "ns1", none, "spec1", ""⟩) :=
  (result_set_before_write ⟨"", "", "demo", "ns1", none, "spec1", ""⟩
    ⟨"", "", "demo", "ns1", none, "spec2", ""⟩ StoreErr.conflict (by decide)).2.2.1


/-- C6: on the normal path the aggregate of the three apply results is
Unchanged exactly when all three are Unchanged, and (absent errors)
`Reconcile` requests a requeue exactly when the aggregate is not
Unchanged. -/
theorem aggregate_unchanged_iff_requeue :
    (∀ r1 r2 r3 : OperationResult,
      (updateRegistryResources (r1, none) (r2, none) (r3, none)).1 =
          OperationResult.ResourceUnchanged ↔
        (r1 = OperationResult.ResourceUnchanged ∧
         r2 = OperationResult.ResourceUnchanged ∧
         r3 = OperationResult.ResourceUnchanged)) ∧
    (∀ (env : ReconcileEnv) (name : String) (mr0 : MR) (res : OperationResult),
      env.getRes = Except.ok mr0 → containsFin mr0 = true →
      mr0.deleted = false → env.normalRes = (res, none) → env.statusErr = none →
      (reconcile env name).2.err = none ∧
      ((reconcile env name).2.requeue = true ↔
        res ≠ OperationResult.ResourceUnchanged)) := by
  constructor
  · intro r1 r2 r3
    cases r1 <;> cases r2 <;> cases r3 <;> decide
  · intro env name mr0 res hget hfin hdel hnorm hstat
    by_cases h : res = OperationResult.ResourceUnchanged <;>
      simp [reconcile, hget, hfin, hdel, hnorm, hstat, h]

/-- Witness for C6's reconcile part at a concrete environment. -/
theorem aggregate_unchanged_iff_requeue_witness :
    (reconcile ⟨Except.ok ⟨[modelRegistryFinalizer], false, []⟩, none, none,
        Except.error StoreErr.notFound, none, none,
        (OperationResult.ResourceCreated, none), none⟩ "demo").2.err = none ∧
    ((reconcile ⟨Except.ok ⟨[modelRegistryFinalizer], false, []⟩, none, none,
        Except.error StoreErr.notFound, none, none,
        (OperationResult.ResourceCreated, none), none⟩ "demo").2.requeue = true ↔
      OperationResult.ResourceCreated ≠ OperationResult.ResourceUnchanged) :=
  aggregate_unchanged_iff_requeue.2 _ "demo" ⟨[modelRegistryFinalizer], false, []⟩
    OperationResult.ResourceCreated rfl (by decide) rfl rfl rfl

/-- A condition list with no Available-typed entry yields availability
false. -/
theorem deploymentAvailable_eq_false (conds : List DepCondition)
    (h : ∀ c ∈ conds, c.dtype ≠ ConditionTypeAvailable) :
    deploymentAvailable conds = false := by
  induction conds with
  | nil => rfl
  | cons c rest ih =>
    have hc : (c.dtype == ConditionTypeAvailable) = false := by
      simpa using h c (by simp)
    simp only [deploymentAvailable, hc]
    simp only [Bool.false_eq_true, if_false]
    exact ih (fun x hx => h x (by simp [hx]))

/-- C10: only the first condition of type Available in the Deployment's
condition list is consulted — its status alone decides availability,
whatever follows — and when no condition of that type exists,
availability defaults to false and the parent's Available condition is
set to False with reason DeploymentUnavailable. -/
theorem available_from_first_condition :
    (∀ (c : DepCondition) (rest : List DepCondition),
      c.dtype = ConditionTypeAvailable →
      deploymentAvailable (c :: rest) = (c.dstatus == ConditionTrue)) ∧
    (∀ conds : List DepCondition,
      (∀ c ∈ conds, c.dtype ≠ ConditionTypeAvailable) →
      deploymentAvailable conds = false) ∧
    (∀ (mr : MR) (dep : Deployment) (opRes : OperationResult)
        (name : String) (updErr : Option StoreErr),
      (∀ c ∈ dep.conditions, c.dtype ≠ ConditionTypeAvailable) →
      ∃ conds,
        (setRegistryStatus (Except.ok mr) (Except.ok dep) updErr opRes name).written =
          some conds ∧
        (⟨ConditionTypeAvailable, ConditionFalse, ReasonUnavailable,
          "Deployment for custom resource " ++ name ++ " is not available"⟩ : MRCondition) ∈ conds) := by
  refine ⟨?_, deploymentAvailable_eq_false, ?_⟩
  · intro c rest h
    simp [deploymentAvailable, h]
  · intro mr dep opRes name updErr h
    have hav : deploymentAvailable dep.conditions = false :=
      deploymentAvailable_eq_false dep.conditions h
    cases updErr with
    | none =>
      refine ⟨_, rfl, ?_⟩
      simp only [hav, Bool.false_eq_true, if_false]
      exact mem_setStatusCondition _ _
    | some e =>
      refine ⟨_, rfl, ?_⟩
      simp only [hav, Bool.false_eq_true, if_false]
      exact mem_setStatusCondition _ _

/-- Witness for C10 at concrete inputs. -/
theorem available_from_first_condition_witness :
    deploymentAvailable [⟨"Available", "False"⟩, ⟨"Available", "True"⟩] =
      ((⟨"Available", "False"⟩ : DepCondition).dstatus == ConditionTrue) ∧
    deploymentAvailable [⟨"Progressing", "True"⟩] = false ∧
    ∃ conds,
      (setRegistryStatus (Except.ok ⟨[], false, []⟩)
          (Except.ok ⟨[⟨"Progressing", "True"⟩]⟩) none
          OperationResult.ResourceUnchanged "demo").written = some conds ∧
      (⟨ConditionTypeAvailable, ConditionFalse, ReasonUnavailable,
        "Deployment for custom resource demo is not available"⟩ : MRCondition) ∈ conds :=
  ⟨available_from_first_condition.1 ⟨"Available", "False"⟩
      [⟨"Available", "True"⟩] rfl,
   available_from_first_condition.2.1 [⟨"Progressing", "True"⟩] (by decide),
   available_from_first_condition.2.2 ⟨[], false, []⟩ ⟨[⟨"Progressing", "True"⟩]⟩
      OperationResult.ResourceUnchanged "demo" none (by decide)⟩

/-- Counterexample to C1: at a concrete input where the Deployment read
fails (NotFound — the deployment not yet created), `setRegistryStatus`
returns the read error as a hard error and issues no status write at
all — it does not set the unavailable state, and nothing is persisted,
refuting the fail-soft behaviour the claim asserts. -/
theorem setRegistryStatus_failSoft_cex :
    (setRegistryStatus (Except.ok ⟨[], false, []⟩)
        (Except.error StoreErr.notFound) none
        OperationResult.ResourceUnchanged "demo").err = some StoreErr.notFound ∧
    (setRegistryStatus (Except.ok ⟨[], false, []⟩)
        (Except.error StoreErr.notFound) none
        OperationResult.ResourceUnchanged "demo").written = none :=
  ⟨rfl, rfl⟩

/-- C1 amended: when the primary workload Deployment cannot be read
during status reconciliation, `setRegistryStatus` returns the read error
without issuing any status write, and `Reconcile` then propagates that
error as a hard error for the attempt (with Requeue set). -/
theorem setRegistryStatus_hard_error_on_deployment_read
    (mr : MR) (e : StoreErr) (updErr : Option StoreErr)
    (opRes : OperationResult) (name : String) :
    setRegistryStatus (Except.ok mr) (Except.error e) updErr opRes name =
      ⟨none, some e⟩ ∧
    (∀ (env : ReconcileEnv) (mr0 : MR) (res : OperationResult),
      env.getRes = Except.ok mr0 → containsFin mr0 = true →
      mr0.deleted = false → env.normalRes = (res, none) →
      env.statusErr = some e →
      (reconcile env name).2 = ⟨true, some e⟩) := by
  constructor
  · rfl
  · intro env mr0 res hget hfin hdel hnorm hstat
    simp [reconcile, hget, hfin, hdel, hnorm, hstat]

/-- Witness for the amended C1 at a concrete environment. -/
theorem setRegistryStatus_hard_error_on_deployment_read_witness :
    setRegistryStatus (Except.ok ⟨[], false, []⟩)
        (Except.error StoreErr.other) none
        OperationResult.ResourceCreated "demo" = ⟨none, some StoreErr.other⟩ ∧
    (reconcile ⟨Except.ok ⟨[modelRegistryFinalizer], false, []⟩, none, none,
        Except.error StoreErr.notFound, none, none,
        (OperationResult.ResourceCreated, none), some StoreErr.other⟩ "demo").2 =
      ⟨true, some StoreErr.other⟩ :=
  ⟨(setRegistryStatus_hard_error_on_deployment_read ⟨[], false, []⟩
      StoreErr.other none OperationResult.ResourceCreated "demo").1,
   (setRegistryStatus_hard_error_on_deployment_read ⟨[], false, []⟩
      StoreErr.other none OperationResult.ResourceCreated "demo").2 _
      ⟨[modelRegistryFinalizer], false, []⟩ OperationResult.ResourceCreated
      rfl (by decide) rfl rfl rfl⟩

/-- The event trace of the deletion branch is always one of five
prefixes of the full deletion sequence (the fourth also occurring when
the finalizer vanished before the removal step). -/
theorem deletionBranch_trace_cases (env : ReconcileEnv) (mr : MR) (name : String) :
    (deletionBranch env mr name).1 = [] ∨
    (deletionBranch env mr name).1 = [Event.setDegradedUnknown, Event.statusWrite1] ∨
    (deletionBranch env mr name).1 =
      [Event.setDegradedUnknown, Event.statusWrite1, Event.cleanup, Event.refetch] ∨
    (deletionBranch env mr name).1 =
      [Event.setDegradedUnknown, Event.statusWrite1, Event.cleanup, Event.refetch,
       Event.setDegradedTrue, Event.statusWrite2] ∨
    (deletionBranch env mr name).1 =
      [Event.setDegradedUnknown, Event.statusWrite1, Event.cleanup, Event.refetch,
       Event.setDegradedTrue, Event.statusWrite2, Event.removeFinalizer, Event.finalizerWrite] := by
  unfold deletionBranch
  by_cases h : containsFin mr
  · simp only [h, if_true]
    cases h1 : IgnoreDeletingErrors env.su1Err
    · simp only [h1]
      cases h2 : IgnoreDeletingErrors (exceptErr env.refetchRes)
      · simp only [h2]
        cases h3 : IgnoreDeletingErrors env.su2Err
        · simp only [h3]
          split
          · cases h4 : IgnoreDeletingErrors env.finUpdErr <;> simp [h4]
          · simp
        · simp [h3]
      · simp [h2]
    · simp [h1]
  · simp [h]

/-- Any reconcile attempt that loaded the parent produces either the
trace of its tail (empty, normal path, or a deletion-branch trace), with
an `addFinalizer` first step exactly when the loaded parent lacked the
finalizer token. -/
theorem reconcile_trace_shape (env : ReconcileEnv) (name : String) (mr0 : MR)
    (hget : env.getRes = Except.ok mr0) :
    ∃ post,
      (post = [] ∨ post = [Event.normalPath] ∨
        ∃ mr, post = (deletionBranch env mr name).1) ∧
      ((containsFin mr0 = true ∧ (reconcile env name).1 = post) ∨
       (containsFin mr0 = false ∧
         (reconcile env name).1 = Event.addFinalizer :: post)) := by
  by_cases hf : containsFin mr0
  · by_cases hd : mr0.deleted
    · refine ⟨(deletionBranch env mr0 name).1, Or.inr (Or.inr ⟨mr0, rfl⟩),
        Or.inl ⟨hf, ?_⟩⟩
      simp [reconcile, hget, hf, hd]
    · refine ⟨[Event.normalPath], Or.inr (Or.inl rfl), Or.inl ⟨hf, ?_⟩⟩
      rcases hn : env.normalRes with ⟨res, oe⟩
      cases oe with
      | some e => simp [reconcile, hget, hf, hd, hn]
      | none =>
        cases hs : env.statusErr with
        | some e => simp [reconcile, hget, hf, hd, hn, hs]
        | none =>
          by_cases hres : res = OperationResult.ResourceUnchanged <;>
            simp [reconcile, hget, hf, hd, hn, hs, hres]
  · have hf' : containsFin mr0 = false := by simpa using hf
    cases haddU : env.addUpdErr with
    | some e =>
      refine ⟨[], Or.inl rfl, Or.inr ⟨hf', ?_⟩⟩
      simp [reconcile, hget, hf', addFin, haddU]
    | none =>
      by_cases hd : mr0.deleted
      · refine ⟨(deletionBranch env (addFin mr0).2 name).1,
          Or.inr (Or.inr ⟨(addFin mr0).2, rfl⟩), Or.inr ⟨hf', ?_⟩⟩
        simp [reconcile, hget, hf', haddU, hd, addFin]
      · refine ⟨[Event.normalPath], Or.inr (Or.inl rfl), Or.inr ⟨hf', ?_⟩⟩
        rcases hn : env.normalRes with ⟨res, oe⟩
        cases oe with
        | some e => simp [reconcile, hget, hf', hd, hn, addFin, haddU]
        | none =>
          cases hs : env.statusErr with
          | some e => simp [reconcile, hget, hf', hd, hn, hs, addFin, haddU]
          | none =>
            by_cases hres : res = OperationResult.ResourceUnchanged <;>
              simp [reconcile, hget, hf', hd, hn, hs, hres, addFin, haddU]

/-- Changing only the conditions of a parent does not affect finalizer
membership. -/
theorem containsFin_setConds (mr : MR) (conds : List MRCondition) :
    containsFin { mr with conditions := conds } = containsFin mr := rfl

/-- C7: a reconcile that observes the deletion timestamp with the
finalizer present and whose external calls all succeed executes exactly
the sequence set-Degraded/Unknown, status write, cleanup, re-read,
set-Degraded/True, status write, finalizer removal, finalizer-removing
write; and in every reconcile whatsoever, if the finalizer token is
removed then the cleanup step occurred strictly before the removal. -/
theorem deletion_branch_order_and_safety :
    (∀ (env : ReconcileEnv) (name : String) (mr0 mrF : MR),
      env.getRes = Except.ok mr0 → mr0.deleted = true → containsFin mr0 = true →
      env.su1Err = none → env.refetchRes = Except.ok mrF → containsFin mrF = true →
      env.su2Err = none → env.finUpdErr = none →
      reconcile env name =
        ([Event.setDegradedUnknown, Event.statusWrite1, Event.cleanup, Event.refetch,
          Event.setDegradedTrue, Event.statusWrite2, Event.removeFinalizer,
          Event.finalizerWrite], ⟨false, none⟩)) ∧
    (∀ (env : ReconcileEnv) (name : String),
      Event.removeFinalizer ∈ (reconcile env name).1 →
      ∃ l1 l2, (reconcile env name).1 = l1 ++ Event.cleanup :: l2 ∧
        Event.removeFinalizer ∉ l1 ∧ Event.removeFinalizer ∈ l2) := by
  constructor
  · intro env name mr0 mrF hget hdel hfin hsu1 href hfinF hsu2 hupd
    simp [reconcile, hget, hfin, hdel, deletionBranch, hsu1, href, hsu2, hupd,
      IgnoreDeletingErrors, exceptErr, removeFin, containsFin_setConds, hfinF]
  · intro env name hmem
    cases hget : env.getRes with
    | error e =>
      exfalso
      by_cases he : e = StoreErr.notFound <;> simp [reconcile, hget, he] at hmem
    | ok mr0 =>
      obtain ⟨post, hpost, hcase⟩ := reconcile_trace_shape env name mr0 hget
      rcases hpost with rfl | rfl | ⟨mr, rfl⟩
      · rcases hcase with ⟨_, htr⟩ | ⟨_, htr⟩ <;> rw [htr] at hmem <;>
          exact absurd hmem (by decide)
      · rcases hcase with ⟨_, htr⟩ | ⟨_, htr⟩ <;> rw [htr] at hmem <;>
          exact absurd hmem (by decide)
      · rcases deletionBranch_trace_cases env mr name with h | h | h | h | h
        · rcases hcase with ⟨_, htr⟩ | ⟨_, htr⟩ <;> rw [htr, h] at hmem <;>
            exact absurd hmem (by decide)
        · rcases hcase with ⟨_, htr⟩ | ⟨_, htr⟩ <;> rw [htr, h] at hmem <;>
            exact absurd hmem (by decide)
        · rcases hcase with ⟨_, htr⟩ | ⟨_, htr⟩ <;> rw [htr, h] at hmem <;>
            exact absurd hmem (by decide)
        · rcases hcase with ⟨_, htr⟩ | ⟨_, htr⟩ <;> rw [htr, h] at hmem <;>
            exact absurd hmem (by decide)
        · rcases hcase with ⟨_, htr⟩ | ⟨_, htr⟩
          · exact ⟨[Event.setDegradedUnknown, Event.statusWrite1],
              [Event.refetch, Event.setDegradedTrue, Event.statusWrite2,
               Event.removeFinalizer, Event.finalizerWrite],
              by rw [htr, h]; rfl, by decide, by decide⟩
          · exact ⟨[Event.addFinalizer, Event.setDegradedUnknown, Event.statusWrite1],
              [Event.refetch, Event.setDegradedTrue, Event.statusWrite2,
               Event.removeFinalizer, Event.finalizerWrite],
              by rw [htr, h]; rfl, by decide, by decide⟩

/-- Witness for C7 at a concrete fully successful deleting reconcile. -/
theorem deletion_branch_order_and_safety_witness :
    reconcile ⟨Except.ok ⟨[modelRegistryFinalizer], true, []⟩, none, none,
      Except.ok ⟨[modelRegistryFinalizer], true, []⟩, none, none,
      (OperationResult.ResourceUnchanged, none), none⟩ "demo" =
      ([Event.setDegradedUnknown, Event.statusWrite1, Event.cleanup, Event.refetch,
        Event.setDegradedTrue, Event.statusWrite2, Event.removeFinalizer,
        Event.finalizerWrite], ⟨false, none⟩) :=
  deletion_branch_order_and_safety.1 _ "demo" ⟨[modelRegistryFinalizer], true, []⟩
    ⟨[modelRegistryFinalizer], true, []⟩ rfl rfl (by decide) rfl rfl (by decide)
    rfl rfl

/-- Counterexample to C2: a reconcile that observes a parent with the
deletion timestamp set and no finalizer token does add (re-add) the
token — the source only checks token absence, not the deletion
timestamp, before adding. -/
theorem finalizer_readd_on_deleting_cex :
    Event.addFinalizer ∈ (reconcile ⟨Except.ok ⟨[], true, []⟩, none, none,
      Except.ok ⟨[modelRegistryFinalizer], true, []⟩, none, none,
      (OperationResult.ResourceUnchanged, none), none⟩ "demo").1 := by decide

/-- C2 amended: the finalizer token is added exactly when the loaded
parent lacks it, regardless of the deletion timestamp; when the add
happens it is the first step of the attempt, and if its persisting
update fails the attempt ends immediately — before the deletion branch
and before any dependent managed-resource work. -/
theorem finalizer_added_whenever_absent (env : ReconcileEnv) (name : String)
    (mr0 : MR) (e : StoreErr) (hget : env.getRes = Except.ok mr0) :
    (Event.addFinalizer ∈ (reconcile env name).1 ↔ containsFin mr0 = false) ∧
    (containsFin mr0 = false →
      (reconcile env name).1.head? = some Event.addFinalizer) ∧
    (containsFin mr0 = false → env.addUpdErr = some e →
      reconcile env name = ([Event.addFinalizer], ⟨false, some e⟩)) := by
  obtain ⟨post, hpost, hcase⟩ := reconcile_trace_shape env name mr0 hget
  have hnotin : Event.addFinalizer ∉ post := by
    rcases hpost with rfl | rfl | ⟨mr, rfl⟩
    · decide
    · decide
    · rcases deletionBranch_trace_cases env mr name with h | h | h | h | h <;>
        rw [h] <;> decide
  refine ⟨?_, ?_, ?_⟩
  · rcases hcase with ⟨hf, htr⟩ | ⟨hf, htr⟩
    · rw [htr]
      simp [hf, hnotin]
    · rw [htr]
      simp [hf]
  · intro hf'
    rcases hcase with ⟨hf, htr⟩ | ⟨hf, htr⟩
    · rw [hf] at hf'
      exact absurd hf' (by decide)
    · rw [htr]
      rfl
  · intro hf' haddU
    simp [reconcile, hget, hf', addFin, haddU]

/-- Witness for the amended C2 at a concrete environment whose
finalizer-persisting update fails. -/
theorem finalizer_added_whenever_absent_witness :
    reconcile ⟨Except.ok ⟨[], false, []⟩, some StoreErr.other, none,
      Except.error StoreErr.notFound, none, none,
      (OperationResult.ResourceUnchanged, none), none⟩ "demo" =
      ([Event.addFinalizer], ⟨false, some StoreErr.other⟩) :=
  (finalizer_added_whenever_absent _ "demo" ⟨[], false, []⟩ StoreErr.other rfl).2.2
    (by decide) rfl

/-- `IgnoreDeletingErrors` maps success to success. -/
theorem IDE_none : IgnoreDeletingErrors none = none := rfl

/-- `IgnoreDeletingErrors` passes a non-NotFound non-Conflict error
through. -/
theorem IDE_other :
    IgnoreDeletingErrors (some StoreErr.other) = some StoreErr.other := rfl

/-- C3: `IgnoreDeletingErrors` returns nil exactly for nil, NotFound and
Conflict; consequently a deleting reconcile (timestamp set, finalizer
present) whose status writes, re-read and finalizer update all return
benign outcomes completes with no fatal error, while a non-benign error
from the first status write, the second status write or the
finalizer-removing update is returned and aborts the attempt. -/
theorem deletion_write_error_tolerance :
    (∀ e : Option StoreErr, IgnoreDeletingErrors e = none ↔
      (e = none ∨ e = some StoreErr.notFound ∨ e = some StoreErr.conflict)) ∧
    (∀ (env : ReconcileEnv) (name : String) (mr0 : MR),
      env.getRes = Except.ok mr0 → mr0.deleted = true → containsFin mr0 = true →
      IgnoreDeletingErrors env.su1Err = none →
      IgnoreDeletingErrors (exceptErr env.refetchRes) = none →
      IgnoreDeletingErrors env.su2Err = none →
      IgnoreDeletingErrors env.finUpdErr = none →
      (reconcile env name).2.err = none) ∧
    (∀ (env : ReconcileEnv) (name : String) (mr0 : MR),
      env.getRes = Except.ok mr0 → mr0.deleted = true → containsFin mr0 = true →
      env.su1Err = some StoreErr.other →
      (reconcile env name).2 = ⟨false, some StoreErr.other⟩) ∧
    (∀ (env : ReconcileEnv) (name : String) (mr0 : MR),
      env.getRes = Except.ok mr0 → mr0.deleted = true → containsFin mr0 = true →
      IgnoreDeletingErrors env.su1Err = none →
      IgnoreDeletingErrors (exceptErr env.refetchRes) = none →
      env.su2Err = some StoreErr.other →
      (reconcile env name).2 = ⟨false, some StoreErr.other⟩) ∧
    (∀ (env : ReconcileEnv) (name : String) (mr0 mrF : MR),
      env.getRes = Except.ok mr0 → mr0.deleted = true → containsFin mr0 = true →
      IgnoreDeletingErrors env.su1Err = none →
      env.refetchRes = Except.ok mrF → containsFin mrF = true →
      IgnoreDeletingErrors env.su2Err = none →
      env.finUpdErr = some StoreErr.other →
      (reconcile env name).2 = ⟨false, some StoreErr.other⟩) := by
  refine ⟨?_, ?_, ?_, ?_, ?_⟩
  · intro e
    cases e with
    | none => simp [IgnoreDeletingErrors]
    | some e' => cases e' <;> simp [IgnoreDeletingErrors]
  · intro env name mr0 hget hdel hfin h1 h2 h3 h4
    have hred : (reconcile env name).2 = (deletionBranch env mr0 name).2 := by
      simp [reconcile, hget, hfin, hdel]
    rw [hred]
    simp only [deletionBranch, hfin, if_true, h1, h2, h3, h4]
    split <;> rfl
  · intro env name mr0 hget hdel hfin h1
    have hred : (reconcile env name).2 = (deletionBranch env mr0 name).2 := by
      simp [reconcile, hget, hfin, hdel]
    rw [hred]
    simp [deletionBranch, hfin, h1, IgnoreDeletingErrors]
  · intro env name mr0 hget hdel hfin h1 h2 h3
    have hred : (reconcile env name).2 = (deletionBranch env mr0 name).2 := by
      simp [reconcile, hget, hfin, hdel]
    rw [hred]
    simp [deletionBranch, hfin, h1, h2, h3, IDE_other]
  · intro env name mr0 mrF hget hdel hfin h1 href hfinF h3 h4
    have hred : (reconcile env name).2 = (deletionBranch env mr0 name).2 := by
      simp [reconcile, hget, hfin, hdel]
    rw [hred]
    simp [deletionBranch, hfin, h1, href, hfinF, h3, h4, IDE_none, IDE_other,
      exceptErr, removeFin, containsFin_setConds]

/-- Witness for C3: a Conflict is swallowed, a deleting reconcile with
only benign (Conflict/NotFound) write outcomes ends with no error, and a
non-benign first status write aborts with that error. -/
theorem deletion_write_error_tolerance_witness :
    IgnoreDeletingErrors (some StoreErr.conflict) = none ∧
    (reconcile ⟨Except.ok ⟨[modelRegistryFinalizer], true, []⟩, none,
      some StoreErr.conflict, Except.error StoreErr.notFound,
      some StoreErr.notFound, some StoreErr.conflict,
      (OperationResult.ResourceUnchanged, none), none⟩ "demo").2.err = none ∧
    (reconcile ⟨Except.ok ⟨[modelRegistryFinalizer], true, []⟩, none,
      some StoreErr.other, Except.error StoreErr.notFound, none, none,
      (OperationResult.ResourceUnchanged, none), none⟩ "demo").2 =
      ⟨false, some StoreErr.other⟩ :=
  ⟨(deletion_write_error_tolerance.1 (some StoreErr.conflict)).mpr
      (Or.inr (Or.inr rfl)),
   deletion_write_error_tolerance.2.1 _ "demo" ⟨[modelRegistryFinalizer], true, []⟩
      rfl rfl (by decide) (by decide) (by decide) (by decide) (by decide),
   deletion_write_error_tolerance.2.2.1 _ "demo" ⟨[modelRegistryFinalizer], true, []⟩
      rfl rfl (by decide) rfl⟩
